import Mathlib

/-!
Verification development for the EdLight-Academy exam-normalization pipeline.

The definitions below are a shallow embedding of the two core scripts:
  * `scripts/fix_all_exams.py`   — answer inference, MCQ key correction, text normalizer
  * `scripts/fix_exam_structure.py` — deterministic repairer, plan applier, validation gate

Python-level conventions carried over into the embedding:
  * JSON `null` / absent optional fields are `Option.none`.
  * Python truthiness of an optional string (`if x:`) is `strTruthy`:
    `none` and `some ""` are falsy.
  * `str.lower` is modelled ASCII-only (`Char.toLower`); all string data the
    scripts compare case-insensitively is ASCII or already lower-case.
  * `str.strip` is modelled as removal of leading/trailing ASCII whitespace.
  * Python dicts (`options`, plan entries) keep insertion order, so they are
    embedded as association lists; dict iteration order is list order.
  * `str.replace` and the two `re.sub` calls are implemented as fuel-indexed
    scanners over the character list; the fuel (the string length) is always
    sufficient because every step consumes at least one character.
-/

namespace EdLight

/-! ## Python string semantics helpers -/

/-- Truthiness of an optional string: Python `if x:` for `x = d.get(key)`. -/
def strTruthy : Option String → Bool
  | none => false
  | some s => s ≠ ""

/-- Python `str.lower`, ASCII-only model. -/
def pyLower (s : String) : String := String.mk (s.data.map Char.toLower)

/-- Python whitespace characters stripped by `str.strip()`. -/
def pySpaceChar (c : Char) : Bool :=
  c == ' ' || c == '\t' || c == '\n' || c == '\r' || c == '\x0b' || c == '\x0c'

/-- Python `str.strip()`. -/
def pyStrip (s : String) : String :=
  String.mk (((s.data.dropWhile pySpaceChar).reverse.dropWhile pySpaceChar).reverse)

/-- Contiguous-sublist check used to model Python substring containment. -/
def listContainsSub (needle : List Char) : List Char → Bool
  | [] => needle.isEmpty
  | c :: cs => needle.isPrefixOf (c :: cs) || listContainsSub needle cs

/-- Python substring containment `needle in hay`. -/
def pyIn (needle hay : String) : Bool := listContainsSub needle.data hay.data

/-- Python `str.replace(pat, repl)` (all non-overlapping occurrences, left to
right); fuel-indexed scanner, called with fuel = length of the subject, which
suffices since `pat` is non-empty in every use site. -/
def pyReplaceAux (pat repl : List Char) : Nat → List Char → List Char
  | 0, s => s
  | _ + 1, [] => []
  | fuel + 1, c :: cs =>
    if pat.isPrefixOf (c :: cs) then
      repl ++ pyReplaceAux pat repl fuel (List.drop pat.length (c :: cs))
    else
      c :: pyReplaceAux pat repl fuel cs

def pyReplace (s pat repl : String) : String :=
  String.mk (pyReplaceAux pat.data repl.data s.data.length s.data)

/-- Python `"\n\n".join`-style joining used via string concatenation. -/
def pyJoin (sep : String) : List String → String
  | [] => ""
  | [x] => x
  | x :: xs => x ++ sep ++ pyJoin sep xs

/-! ## Document model (`exam → sections → questions`) -/

structure AnswerPart where
  label : Option String
  answer : Option String
deriving Repr, DecidableEq

structure Question where
  qtype : Option String
  question : Option String
  options : Option (List (String × String))
  correct : Option String
  final_answer : Option String
  answer_parts : List AnswerPart
  model_answer : Option String
  scaffold_text : Option String
  explanation : Option String
  hints : List String
deriving Repr, DecidableEq

/-- Truthiness of the `options` dict: Python `if options:`. -/
def optionsTruthy : Option (List (String × String)) → Bool
  | none => false
  | some l => l ≠ []

/-! ## Text Normalizer (`fix_all_exams.py`, `clean_latex_for_language`) -/

/-- `LANGUAGE_SUBJECTS` from `fix_all_exams.py` lines 25-35. -/
def LANGUAGE_SUBJECTS : List String :=
  ["anglais", "english", "espagnol", "spanish", "español",
   "français", "francais", "french", "kreyol", "kreyòl",
   "philosophie", "philosophy", "philo",
   "histoire-géographie", "histoire", "géographie",
   "histoire et géographie", "histoire-geographie",
   "art et musique", "arts et musique",
   "éducation esthétique et artistique",
   "kominikasyon kreyòl", "culture générale",
   "connaissances générales", "éthique", "art_musique"]

/-- `MATH_SUBJECTS` from `fix_all_exams.py` lines 38-47 (not consulted by
`clean_latex_for_language`, which only tests `LANGUAGE_SUBJECTS`). -/
def MATH_SUBJECTS : List String :=
  ["mathématiques", "mathematiques", "maths", "math",
   "physique", "physics", "chimie", "chemistry",
   "svt", "biologie", "géologie", "anatomie",
   "économie", "economie", "informatique", "sciences infirmières",
   "mathématiques topographie", "zoologie"]

/-- Maximal leading run of decimal digits. -/
def takeDigits : List Char → List Char × List Char
  | [] => ([], [])
  | c :: cs =>
    if c.isDigit then
      let (ds, r) := takeDigits cs
      (c :: ds, r)
    else ([], c :: cs)

/-- Try to match the ordinal regex at the head of the input and
return (replacement, rest). Pattern from line 77 of `fix_all_exams.py`:
dollar, digits, caret, open brace, one of th/st/nd/rd, close brace, dollar;
the replacement is digits ++ suffix. -/
def ordinalAt : List Char → Option (List Char × List Char)
  | '$' :: rest =>
    match takeDigits rest with
    | ([], _) => none
    | (ds, '^' :: '{' :: s1 :: s2 :: '}' :: '$' :: rest2) =>
      if (s1 = 't' ∧ s2 = 'h') ∨ (s1 = 's' ∧ s2 = 't') ∨
         (s1 = 'n' ∧ s2 = 'd') ∨ (s1 = 'r' ∧ s2 = 'd') then
        some (ds ++ [s1, s2], rest2)
      else none
    | _ => none
  | _ => none

/-- Leftmost, non-overlapping substitution of the ordinal pattern
(`re.sub`, line 77). Fuel = input length, sufficient since a match consumes
at least one character. -/
def subOrdinalsAux : Nat → List Char → List Char
  | 0, s => s
  | _ + 1, [] => []
  | fuel + 1, c :: cs =>
    match ordinalAt (c :: cs) with
    | some (repl, rest) => repl ++ subOrdinalsAux fuel rest
    | none => c :: subOrdinalsAux fuel cs

def sub_ordinals (s : String) : String := String.mk (subOrdinalsAux s.data.length s.data)

/-- `re.sub` of backslash followed by one or more ASCII letters with the empty
string (line 84). -/
def stripTexCommandsAux : Nat → List Char → List Char
  | 0, s => s
  | _ + 1, [] => []
  | fuel + 1, c :: cs =>
    if c = '\\' then
      match List.span Char.isAlpha cs with
      | ([], _) => c :: stripTexCommandsAux fuel cs
      | (_ :: _, rest) => stripTexCommandsAux fuel rest
    else c :: stripTexCommandsAux fuel cs

/-- Body of `replace_underline` (lines 80-85). -/
def replaceUnderlineInner (inner : List Char) : List Char :=
  let s := String.mk inner
  let s := pyReplace s "\\:" " "
  let s := pyReplace s "\\," " "
  let s := pyReplace s "\\;" " "
  let s := pyReplace s "\\text\x7b" ""
  let s := pyReplace s "\x7d" ""
  let s := String.mk (stripTexCommandsAux s.data.length s.data)
  (pyStrip s).data

/-- Try to match the underline regex at the head of the input (line 86):
dollar, backslash-underline, open brace, one or more non-close-brace
characters, close brace, dollar. -/
def underlineAt : List Char → Option (List Char × List Char)
  | '$' :: '\\' :: 'u' :: 'n' :: 'd' :: 'e' :: 'r' :: 'l' :: 'i' :: 'n' :: 'e' :: '{' :: rest =>
    match List.span (fun c => c != '}') rest with
    | ([], _) => none
    | (inner, '}' :: '$' :: rest2) => some (replaceUnderlineInner inner, rest2)
    | _ => none
  | _ => none

def subUnderlinesAux : Nat → List Char → List Char
  | 0, s => s
  | _ + 1, [] => []
  | fuel + 1, c :: cs =>
    match underlineAt (c :: cs) with
    | some (repl, rest) => repl ++ subUnderlinesAux fuel rest
    | none => c :: subUnderlinesAux fuel cs

def sub_underlines (s : String) : String := String.mk (subUnderlinesAux s.data.length s.data)

/-- `clean_latex_for_language` (`fix_all_exams.py` lines 67-106). The stats
counters (lines 100-104) have no effect on the returned text and are omitted. -/
def clean_latex_for_language (text : String) (subject_lower : String) : String :=
  if text = "" ∨ subject_lower ∉ LANGUAGE_SUBJECTS then text
  else
    let t1 := sub_ordinals text
    let t2 := sub_underlines t1
    let t3 := pyReplace t2 "$\\ldots$" "..."
    pyReplace t3 "\\ldots" "..."

/-! ## Answer Inference Engine (`fix_all_exams.py`, `fix_question` et al.) -/

/-- The "correct option" label synonyms (lines 116-117). -/
def correctLabels : List String :=
  ["correct option", "option", "correct", "réponse correcte",
   "option correcte", "opción correcta", "respuesta correcta"]

/-- `extract_correct_from_answer_parts` (lines 109-119). -/
def extract_correct_from_answer_parts (aps : List AnswerPart) : Option String :=
  match aps.find? (fun ap => correctLabels.contains (pyLower (ap.label.getD ""))) with
  | some ap => some (pyStrip (ap.answer.getD ""))
  | none => none

/-- `fix_mcq_correct_key` (lines 122-148): rewrite `correct` holding answer
text to the matching option key; exact value match first, then substring. -/
def fix_mcq_correct_key (q : Question) : Question :=
  match q.correct, q.options with
  | some correct, some options =>
    if correct = "" ∨ options = [] then q
    else if (options.map (fun kv => pyLower kv.1)).contains (pyLower correct) then q
    else
      match options.find? (fun kv => pyStrip (pyLower kv.2) == pyStrip (pyLower correct)) with
      | some kv => { q with correct := some kv.1 }
      | none =>
        match options.find? (fun kv => pyIn (pyStrip (pyLower correct)) (pyStrip (pyLower kv.2))) with
        | some kv => { q with correct := some kv.1 }
        | none => q
  | _, _ => q

/-- The MCQ option-key alphabet tuple of lines 179 and 203. -/
def mcqBareKeys : List String := ["a", "b", "c", "d", "e", "f"]

/-- Lines 183-185: `final_answer` starts with a letter a-f followed by a
separator (or is a single such letter); returns the leading key. -/
def leadKey (fl : String) : Option String :=
  match fl.data with
  | [] => none
  | [c] => if "abcdef".data.contains c then some (String.mk [c]) else none
  | c :: c2 :: _ =>
    if "abcdef".data.contains c ∧ ".):, ".data.contains c2 then some (String.mk [c])
    else none

/-- Fix 0 (lines 159-171): resolve a null `type`. -/
def fix0_resolveType (q : Question) : Question :=
  if q.qtype = none then
    let qtext := pyLower (q.question.getD "")
    if optionsTruthy q.options then { q with qtype := some "multiple_choice" }
    else if pyIn "dissertation" qtext ∨ pyIn "rédiger" qtext ∨ pyIn "write" qtext then
      { q with qtype := some "essay" }
    else { q with qtype := some "short_answer" }
  else q

/-- Fix 1 (lines 173-213): infer a missing MCQ `correct` from `final_answer`
(bare key, leading key + separator, exact option-value match), then from the
first "correct option" `answer_parts` entry (bare key, exact value match).
The captured locals `correct0`, `finalAnswer`, `options`, `answerParts` are
the ones read at the top of `fix_question` (lines 153-157). -/
def fix1_mcqInfer (qtype : Option String) (correct0 : Option String)
    (finalAnswer : String) (options : Option (List (String × String)))
    (answerParts : List AnswerPart) (q : Question) : Question :=
  if qtype = some "multiple_choice" ∧ ¬ strTruthy correct0 then
    let q1 :=
      if finalAnswer ≠ "" then
        let fl := pyStrip (pyLower finalAnswer)
        if fl ∈ mcqBareKeys then { q with correct := some fl }
        else
          match leadKey fl with
          | some k => { q with correct := some k }
          | none =>
            match options with
            | some opts =>
              if opts ≠ [] then
                match opts.find? (fun kv =>
                    pyStrip (pyLower kv.2) == fl || fl == pyStrip (pyLower kv.2)) with
                | some kv => { q with correct := some kv.1 }
                | none => q
              else q
            | none => q
      else q
    if ¬ strTruthy q1.correct then
      match extract_correct_from_answer_parts answerParts with
      | some extracted =>
        if extracted ≠ "" then
          let el := pyStrip (pyLower extracted)
          if el ∈ mcqBareKeys then { q1 with correct := some el }
          else
            match options with
            | some opts =>
              if opts ≠ [] then
                match opts.find? (fun kv => pyStrip (pyLower kv.2) == el) with
                | some kv => { q1 with correct := some kv.1 }
                | none => q1
              else q1
            | none => q1
        else q1
      | none => q1
    else q1
  else q

/-- The fill-blank sentinel value set (lines 220-221). -/
def skipValues : List String :=
  ["cannot be determined", "incomplete question", "n/a", "",
   "no model answer available", "cannot be determined from provided text"]

/-- Fix 3 (lines 219-232): infer a missing fill-blank `correct` from
`final_answer` (unless a sentinel), else from the first non-sentinel
`answer_parts` entry. `correct0` is the `correct` read at function entry. -/
def fix3_fillBlank (qtype : Option String) (correct0 : Option String)
    (finalAnswer : String) (answerParts : List AnswerPart) (q : Question) : Question :=
  if qtype = some "fill_blank" ∧ ¬ strTruthy correct0 then
    if finalAnswer ≠ "" ∧ pyStrip (pyLower finalAnswer) ∉ skipValues then
      { q with correct := some finalAnswer }
    else if answerParts ≠ [] then
      match answerParts.find? (fun ap =>
          let ans := pyStrip (ap.answer.getD "")
          ans ≠ "" ∧ pyLower ans ∉ skipValues) with
      | some ap => { q with correct := some (pyStrip (ap.answer.getD "")) }
      | none => q
    else q
  else q

/-- Fix 4 (lines 234-246): infer a missing true/false `correct` from
`final_answer` (exact token, else vrai/faux substring). -/
def fix4_trueFalse (qtype : Option String) (correct0 : Option String)
    (finalAnswer : String) (q : Question) : Question :=
  if qtype = some "true_false" ∧ ¬ strTruthy correct0 then
    if finalAnswer ≠ "" then
      let fl := pyStrip (pyLower finalAnswer)
      if fl ∈ (["vrai", "faux", "true", "false", "v", "f"] : List String) then
        { q with correct := some fl }
      else if pyIn "vrai" fl then { q with correct := some "vrai" }
      else if pyIn "faux" fl then { q with correct := some "faux" }
      else q
    else q
  else q

/-- One free-text field of Fix 5 (lines 250-255). -/
def fix5_field (subject_lower : String) (v : Option String) : Option String :=
  match v with
  | some s => if s ≠ "" then some (clean_latex_for_language s subject_lower) else some s
  | none => none

/-- Fix 5 (lines 248-266): subject-gated markup cleanup of the free-text
fields and the hints array. All hints in the model are strings, so the
`isinstance(h, str)` branch always applies. -/
def fix5_cleanLatex (subject_lower : String) (q : Question) : Question :=
  if subject_lower ∈ LANGUAGE_SUBJECTS then
    { q with
      question := fix5_field subject_lower q.question
      model_answer := fix5_field subject_lower q.model_answer
      scaffold_text := fix5_field subject_lower q.scaffold_text
      explanation := fix5_field subject_lower q.explanation
      hints := q.hints.map (fun h => clean_latex_for_language h subject_lower) }
  else q

/-- `fix_question` (lines 151-276). The locals bound first mirror lines
153-157; Fix 2 is the guarded key-correction call of lines 214-216; Fix 6
(lines 268-274) is a no-op in the source (`pass`) and contributes nothing. -/
def fix_question (q0 : Question) (subject_lower : String) : Question :=
  let correct0 := q0.correct
  let options := q0.options
  let finalAnswer := pyStrip (q0.final_answer.getD "")
  let answerParts := q0.answer_parts
  let q1 := fix0_resolveType q0
  let qtype := q1.qtype
  let q2 := fix1_mcqInfer qtype correct0 finalAnswer options answerParts q1
  let q3 := if qtype = some "multiple_choice" ∧ strTruthy q2.correct then fix_mcq_correct_key q2 else q2
  let q4 := fix3_fillBlank qtype correct0 finalAnswer answerParts q3
  let q5 := fix4_trueFalse qtype correct0 finalAnswer q4
  fix5_cleanLatex subject_lower q5

/-! ## Structure repair (`fix_exam_structure.py`) -/

structure Section where
  section_title : Option String
  instructions : Option String
  questions : List Question
deriving Repr, DecidableEq

structure Exam where
  subject : Option String
  level : Option String
  year : Option String
  exam_title : Option String
  sections : List Section
deriving Repr, DecidableEq

/-- `count_questions` (`fix_exam_structure.py` lines 285-290). -/
def count_questions (e : Exam) : Nat :=
  (e.sections.map (fun s => s.questions.length)).sum

/-- The merge of a dropped empty section's instructions (and possibly title)
into the following section (`simple_fix`, lines 82-92). Precondition in the
source: `sec.instructions` is truthy. -/
def mergeIntoNext (sec next : Section) : Section :=
  let preamble := sec.instructions.getD ""
  let existing := next.instructions.getD ""
  let next1 :=
    if existing ≠ "" then { next with instructions := some (preamble ++ "\n\n" ++ existing) }
    else { next with instructions := some preamble }
  if ¬ strTruthy next1.section_title ∧ strTruthy sec.section_title then
    { next1 with section_title := sec.section_title }
  else next1

/-- Null-title placeholder of `simple_fix` lines 96-98 (`idx` is 0-based). -/
def fixTitle (idx : Nat) (sec : Section) : Section :=
  if sec.section_title = none then
    { sec with section_title := some ("Section " ++ toString (idx + 1)) }
  else sec

/-- The loop of `simple_fix` (lines 73-100). The Python loop iterates over the
section list while mutating the *next* element in place when an empty section's
instructions are folded forward; this is embedded by carrying the current
section as a parameter, so the element examined at each index is the one the
Python loop would see after any mutation by the previous iteration. -/
def simpleFixGo (idx : Nat) (cur : Section) : List Section → List Section
  | [] => if cur.questions = [] then [] else [fixTitle idx cur]
  | next :: rest =>
    if cur.questions = [] then
      if strTruthy cur.instructions then simpleFixGo (idx + 1) (mergeIntoNext cur next) rest
      else simpleFixGo (idx + 1) next rest
    else fixTitle idx cur :: simpleFixGo (idx + 1) next rest

/-- The rebuilt section list of `simple_fix`. -/
def simpleFixSections : List Section → List Section
  | [] => []
  | s :: l => simpleFixGo 0 s l

/-- `simple_fix` (lines 67-103). -/
def simple_fix (e : Exam) : Exam :=
  { e with sections := simpleFixSections e.sections }

/-! ## Plan Applier (`apply_gemini_plan`, lines 220-282) -/

/-- One entry of the restructuring plan's `section_plan` array. The defaults
of `entry.get(...)` (lines 232-235) are applied at parse time: a missing
`original_indices` is `[]`, a missing `new_title` is `"Section"`, a missing
`merge_strategy` is `"keep"`. Indices are `Int` because they arrive from JSON
and Python list indexing accepts negative values. -/
structure PlanEntry where
  original_indices : List Int
  new_title : String
  new_instructions : Option String
  merge_strategy : String
deriving Repr, DecidableEq

/-- Python `lst[i]`: negative indices count from the end; an index outside
`[-len, len)` raises `IndexError` (modelled as `Except.error`). In
`apply_gemini_plan` this is only reached under the guard `idx < len`. -/
def pyListGet (l : List Section) (i : Int) : Except Unit Section :=
  let j := if i < 0 then i + l.length else i
  if h : 0 ≤ j ∧ j < (l.length : Int) then
    .ok (l.get ⟨j.toNat, by omega⟩)
  else .error ()

/-- One index of the `merge_into_previous` branch (lines 239-250), updating
the previously materialized output section. -/
def mergeIdx (orig : List Section) (last : Section) (i : Int) : Except Unit Section :=
  if i < (orig.length : Int) then do
    let o ← pyListGet orig i
    let last1 := { last with questions := last.questions ++ o.questions }
    if strTruthy o.instructions then
      let existing := last1.instructions.getD ""
      if existing ≠ "" then
        pure { last1 with instructions := some (existing ++ "\n\n" ++ (o.instructions.getD "")) }
      else pure { last1 with instructions := o.instructions }
    else pure last1
  else pure last

/-- One index of the keep/rename collection loop (lines 257-263), extending
the gathered questions and the list of non-empty original instructions. -/
def collectIdx (orig : List Section) (acc : List Question × List String) (i : Int) :
    Except Unit (List Question × List String) :=
  if i < (orig.length : Int) then do
    let o ← pyListGet orig i
    pure (acc.1 ++ o.questions,
          if strTruthy o.instructions then acc.2 ++ [o.instructions.getD ""] else acc.2)
  else pure acc

/-- Build the new section of the keep/rename branch (lines 253-279). -/
def buildKeepSection (orig : List Section) (entry : PlanEntry) : Except Unit Section := do
  let (allQ, combined) ← entry.original_indices.foldlM (collectIdx orig) ([], [])
  let finalInstructions :=
    if combined ≠ [] then
      let origInst := pyJoin "\n\n" combined
      if strTruthy entry.new_instructions then
        some ((entry.new_instructions.getD "") ++ "\n\n" ++ origInst)
      else some origInst
    else entry.new_instructions
  pure { section_title := some entry.new_title
         instructions := finalInstructions
         questions := allQ }

/-- One iteration of the entry loop of `apply_gemini_plan` (lines 231-279).
The accumulator holds the output sections in reverse order (Python appends;
here we cons), so `new_sections[-1]` is the head. -/
def applyEntryStep (orig : List Section) (acc : List Section) (entry : PlanEntry) :
    Except Unit (List Section) :=
  if entry.merge_strategy = "merge_into_previous" ∧ acc ≠ [] then
    match acc with
    | last :: restAcc => do
      let last1 ← entry.original_indices.foldlM (mergeIdx orig) last
      pure (last1 :: restAcc)
    | [] => pure acc
  else do
    let sec ← buildKeepSection orig entry
    pure (sec :: acc)

/-- The entry loop of `apply_gemini_plan` (lines 229-279). -/
def applyEntries (orig : List Section) (plan : List PlanEntry) : Except Unit (List Section) := do
  let revSections ← plan.foldlM (applyEntryStep orig) []
  pure revSections.reverse

/-- `apply_gemini_plan` (lines 220-282): an empty `section_plan` returns the
exam unchanged (line 226), otherwise the plan entries rebuild `sections`. -/
def apply_gemini_plan (e : Exam) (plan : List PlanEntry) : Except Unit Exam :=
  if plan = [] then .ok e
  else do
    let secs ← applyEntries e.sections plan
    pure { e with sections := secs }

/-- The per-exam restructuring step of `main` (lines 379-395): apply the plan;
if the applier raises, or the recomputed question count differs from the
pre-plan count, discard the result and fall back to `simple_fix` on the
original exam; otherwise store the restructured exam. -/
def restructureStep (exam : Exam) (plan : List PlanEntry) : Exam :=
  match apply_gemini_plan exam plan with
  | .error _ => simple_fix exam
  | .ok restructured =>
    if count_questions restructured = count_questions exam then restructured
    else simple_fix exam

/-- Modelled from the spec (§3, Restructuring Plan): the partition condition
the spec says is "validated before application" — every original section index
in `[0, sectionCount)` appears in exactly one plan entry, and no entry holds an
out-of-range index. The source contains no code computing this predicate; it
is stated here only to be compared with what `apply_gemini_plan` actually
does. -/
def specPlanPartition (plan : List PlanEntry) (n : Nat) : Prop :=
  (∀ i : Nat, i < n → (plan.countP (fun en => en.original_indices.contains (i : Int))) = 1) ∧
  (∀ en ∈ plan, ∀ idx ∈ en.original_indices, 0 ≤ idx ∧ idx < (n : Int))

instance (plan : List PlanEntry) (n : Nat) : Decidable (specPlanPartition plan n) := by
  unfold specPlanPartition; infer_instance

/-- A plan entry with the original-section indices at or beyond `n` removed
(used to state that such indices contribute nothing to the applied plan). -/
def entryDropHigh (n : Nat) (en : PlanEntry) : PlanEntry :=
  { en with original_indices := en.original_indices.filter (fun i => i < (n : Int)) }

/-! ## Concrete documents used by scenario conjuncts, witnesses and
counterexamples -/

/-- The MCQ of the spec's Colour/Color scenario. -/
def qColor : Question :=
  { qtype := some "multiple_choice"
    question := none
    options := some [("a", "Colour"), ("b", "Colour"), ("c", "Color"), ("d", "Colours")]
    correct := none
    final_answer := some "Color"
    answer_parts := []
    model_answer := none
    scaffold_text := none
    explanation := none
    hints := [] }

/-- An MCQ whose `final_answer` is a strict substring of an option value but
matches no option value exactly. -/
def qPari : Question :=
  { qColor with options := some [("a", "Paris")], final_answer := some "Pari" }

/-- A plain question with one of everything unset. -/
def qPlain : Question := { qColor with final_answer := none, options := none }

/-- An MCQ whose `correct` is already set. -/
def qSet : Question := { qColor with correct := some "a" }

/-- An essay question with `correct` set and a distracting `final_answer`. -/
def qEssay : Question :=
  { qColor with qtype := some "essay", correct := some "x", final_answer := some "vrai" }

/-- An MCQ whose `correct` holds the answer text of option c instead of the
key. -/
def qKeyText : Question := { qColor with correct := some "Color" }

/-- The exam of the spec's empty-section scenario: an empty section holding
only instructions, followed by a section with questions. -/
def examScenario : Exam :=
  { subject := none
    level := none
    year := none
    exam_title := none
    sections :=
      [{ section_title := none, instructions := some "Consignes générales", questions := [] },
       { section_title := some "B", instructions := some "Lisez le texte.", questions := [qPlain] }] }

/-- Exam used by the plan counterexample: one question-bearing section, then
an empty section with instructions. -/
def examTwo : Exam :=
  { examScenario with
    sections :=
      [{ section_title := some "A", instructions := none, questions := [qPlain] },
       { section_title := some "B", instructions := some "X", questions := [] }] }

/-- A plan in which original index 1 appears in two entries — it violates the
partition condition of the spec, yet preserves the total question count
because section 1 of `examTwo` holds no questions. -/
def planDup : List PlanEntry :=
  [{ original_indices := [0, 1], new_title := "T1", new_instructions := none,
     merge_strategy := "keep" },
   { original_indices := [1], new_title := "T2", new_instructions := none,
     merge_strategy := "keep" }]

/-- The exam `apply_gemini_plan examTwo planDup` produces: the duplicated
index 1 contributes its instructions to both output sections. -/
def examTwoApplied : Exam :=
  { examTwo with
    sections :=
      [{ section_title := some "T1", instructions := some "X", questions := [qPlain] },
       { section_title := some "T2", instructions := some "X", questions := [] }] }

/-- A plan referencing original index 5, beyond `examTwo`'s two sections. -/
def planHigh : List PlanEntry :=
  [{ original_indices := [0, 1, 5], new_title := "T", new_instructions := none,
     merge_strategy := "keep" }]

/-! ## Lemmas about the deterministic repairer -/

theorem mergeIntoNext_questions (sec next : Section) :
    (mergeIntoNext sec next).questions = next.questions := by
  simp only [mergeIntoNext]
  split <;> split <;> rfl

theorem fixTitle_questions (idx : Nat) (sec : Section) :
    (fixTitle idx sec).questions = sec.questions := by
  unfold fixTitle; split <;> rfl

theorem fixTitle_title_ne_none (idx : Nat) (sec : Section) :
    (fixTitle idx sec).section_title ≠ none := by
  unfold fixTitle; split
  · simp
  · next h => exact h

theorem fixTitle_of_title_ne_none (idx : Nat) (sec : Section)
    (h : sec.section_title ≠ none) : fixTitle idx sec = sec := by
  unfold fixTitle; exact if_neg h

/-- Every section surviving the `simple_fix` loop has questions and a
non-null title. -/
theorem simpleFixGo_mem : ∀ (l : List Section) (idx : Nat) (cur : Section),
    ∀ s ∈ simpleFixGo idx cur l, s.questions ≠ [] ∧ s.section_title ≠ none := by
  intro l
  induction l with
  | nil =>
    intro idx cur s hs
    unfold simpleFixGo at hs
    split at hs
    · simp at hs
    · next h =>
      simp only [List.mem_singleton] at hs
      subst hs
      exact ⟨by rw [fixTitle_questions]; exact h, fixTitle_title_ne_none idx cur⟩
  | cons next rest ih =>
    intro idx cur s hs
    unfold simpleFixGo at hs
    split at hs
    · split at hs
      · exact ih _ _ s hs
      · exact ih _ _ s hs
    · next h =>
      rcases List.mem_cons.mp hs with h1 | h2
      · subst h1
        exact ⟨by rw [fixTitle_questions]; exact h, fixTitle_title_ne_none idx cur⟩
      · exact ih _ _ s h2

/-- On a list of sections that all already have questions and a title, the
`simple_fix` loop is the identity. -/
theorem simpleFixGo_id : ∀ (l : List Section) (idx : Nat) (cur : Section),
    cur.questions ≠ [] → cur.section_title ≠ none →
    (∀ s ∈ l, s.questions ≠ [] ∧ s.section_title ≠ none) →
    simpleFixGo idx cur l = cur :: l := by
  intro l
  induction l with
  | nil =>
    intro idx cur h1 h2 _
    unfold simpleFixGo
    rw [if_neg h1, fixTitle_of_title_ne_none idx cur h2]
  | cons next rest ih =>
    intro idx cur h1 h2 h3
    unfold simpleFixGo
    rw [if_neg h1, fixTitle_of_title_ne_none idx cur h2,
      ih (idx + 1) next (h3 next (by simp)).1 (h3 next (by simp)).2
        (fun s hs => h3 s (List.mem_cons_of_mem _ hs))]

theorem simpleFixSections_idem (l : List Section) :
    simpleFixSections (simpleFixSections l) = simpleFixSections l := by
  cases l with
  | nil => rfl
  | cons s l =>
    show simpleFixSections (simpleFixGo 0 s l) = simpleFixGo 0 s l
    cases hgo : simpleFixGo 0 s l with
    | nil => rfl
    | cons s' l' =>
      have hmem := simpleFixGo_mem l 0 s
      rw [hgo] at hmem
      show simpleFixGo 0 s' l' = s' :: l'
      exact simpleFixGo_id l' 0 s' (hmem s' (by simp)).1 (hmem s' (by simp)).2
        (fun x hx => hmem x (List.mem_cons_of_mem _ hx))

/-- The `simple_fix` loop conserves the total question count: dropped sections
are exactly the question-free ones, and the instruction/title merge does not
move questions. -/
theorem simpleFixGo_count : ∀ (l : List Section) (idx : Nat) (cur : Section),
    ((simpleFixGo idx cur l).map (fun s => s.questions.length)).sum
      = cur.questions.length + ((l.map (fun s => s.questions.length)).sum) := by
  intro l
  induction l with
  | nil =>
    intro idx cur
    unfold simpleFixGo
    split
    · next h => simp [h]
    · simp [fixTitle_questions]
  | cons next rest ih =>
    intro idx cur
    unfold simpleFixGo
    split
    · next h =>
      split
      · rw [ih, mergeIntoNext_questions]
        simp [h]
      · rw [ih]
        simp [h]
    · simp only [List.map_cons, List.sum_cons, fixTitle_questions, ih]

theorem count_questions_simple_fix (e : Exam) :
    count_questions (simple_fix e) = count_questions e := by
  unfold simple_fix count_questions
  cases h : e.sections with
  | nil => rfl
  | cons s l =>
    show ((simpleFixGo 0 s l).map (fun s => s.questions.length)).sum
      = (((s :: l).map (fun s => s.questions.length)).sum)
    rw [simpleFixGo_count]
    simp

/-! ## Claim theorems -/

/-- C1: question-count conservation of the structural-repair step. For every
exam and every plan, the step of `main` (apply the plan, recount, and on any
count drift — or applier failure — fall back to `simple_fix` on the original
exam) stores an exam whose total question count equals the input's. -/
theorem C1_question_count_conserved (e : Exam) (plan : List PlanEntry) :
    count_questions (restructureStep e plan) = count_questions e := by
  unfold restructureStep
  cases h : apply_gemini_plan e plan with
  | error _ => exact count_questions_simple_fix e
  | ok r =>
    dsimp only
    split
    · assumption
    · exact count_questions_simple_fix e

/-- C3: the deterministic repairer is idempotent — `simple_fix` applied twice
equals `simple_fix` applied once, because one application leaves every
surviving section with a non-empty question list and a non-null title, on
which the pass is the identity. -/
theorem C3_simple_fix_idempotent (e : Exam) :
    simple_fix (simple_fix e) = simple_fix e := by
  unfold simple_fix
  simp [simpleFixSections_idem]

theorem getD_ne_of_strTruthy (o : Option String) (h : strTruthy o = true) :
    o.getD "" ≠ "" := by
  cases o with
  | none => simp [strTruthy] at h
  | some s => simpa [strTruthy] using h

/-- Unfolding of `mergeIntoNext` when the next section has non-empty
instructions and a truthy title (no title inheritance). -/
theorem mergeIntoNext_eq (sec next : Section)
    (hn : strTruthy next.instructions = true)
    (ht : strTruthy next.section_title = true) :
    mergeIntoNext sec next
      = { section_title := next.section_title
          instructions := some (sec.instructions.getD "" ++ "\n\n" ++ next.instructions.getD "")
          questions := next.questions } := by
  simp only [mergeIntoNext]
  rw [if_pos (getD_ne_of_strTruthy next.instructions hn)]
  rw [if_neg]
  intro hcon
  exact hcon.1 ht

/-- Unfolding of `mergeIntoNext` when the next section has non-empty
instructions but no title while the dropped section's title is truthy: the
title is inherited. -/
theorem mergeIntoNext_inherit (sec next : Section)
    (hn : strTruthy next.instructions = true)
    (hnt : next.section_title = none)
    (hst : strTruthy sec.section_title = true) :
    mergeIntoNext sec next
      = { section_title := sec.section_title
          instructions := some (sec.instructions.getD "" ++ "\n\n" ++ next.instructions.getD "")
          questions := next.questions } := by
  simp only [mergeIntoNext]
  rw [if_pos (getD_ne_of_strTruthy next.instructions hn)]
  rw [if_pos]
  constructor
  · show ¬ (strTruthy next.section_title = true)
    rw [hnt]
    simp [strTruthy]
  · exact hst

/-- One dropping step of the `simple_fix` loop. -/
theorem simpleFixGo_drop (idx : Nat) (cur next : Section) (rest : List Section)
    (hq : cur.questions = []) (hi : strTruthy cur.instructions = true) :
    simpleFixGo idx cur (next :: rest)
      = simpleFixGo (idx + 1) (mergeIntoNext cur next) rest := by
  conv_lhs => unfold simpleFixGo
  rw [if_pos hq, if_pos hi]

theorem fixTitle_eq (idx : Nat) (sec : Section) :
    fixTitle idx sec
      = { sec with section_title :=
            if sec.section_title = none then some ("Section " ++ toString (idx + 1))
            else sec.section_title } := by
  unfold fixTitle
  split <;> rfl

/-- C8: deterministic repair of sections. Every zero-question section is
dropped (the output contains none, and every survivor has a non-null title);
a dropped section's non-empty instructions are prepended to the next section's
instructions with a blank-line separator (the spec's Consignes scenario); the
dropped section's title is inherited by the next section only when that
section has no title of its own; and a surviving null-titled section receives
the positional placeholder built from its 1-based index. -/
theorem C8_simple_fix_sections (e : Exam) (idx : Nat) (t t2 : Option String)
    (qs : List Question) (rest : List Section) (sec : Section) :
    (∀ s ∈ (simple_fix e).sections, s.questions ≠ [] ∧ s.section_title ≠ none)
  ∧ (qs ≠ [] → strTruthy t2 →
      simpleFixGo idx
          { section_title := t, instructions := some "Consignes générales", questions := [] }
          ({ section_title := t2, instructions := some "Lisez le texte.", questions := qs } :: rest)
        = simpleFixGo (idx + 1)
            { section_title := t2,
              instructions := some "Consignes générales\n\nLisez le texte.",
              questions := qs } rest)
  ∧ (∀ t0 : String, t = some t0 → t0 ≠ "" →
      simpleFixGo idx
          { section_title := t, instructions := some "Consignes générales", questions := [] }
          ({ section_title := none, instructions := some "Lisez le texte.", questions := qs } :: rest)
        = simpleFixGo (idx + 1)
            { section_title := some t0,
              instructions := some "Consignes générales\n\nLisez le texte.",
              questions := qs } rest)
  ∧ (sec.questions ≠ [] →
      ∃ tail, simpleFixGo idx sec rest
        = { sec with section_title :=
              if sec.section_title = none then some ("Section " ++ toString (idx + 1))
              else sec.section_title } :: tail) := by
  refine ⟨?_, ?_, ?_, ?_⟩
  · intro s hs
    have hs' : s ∈ simpleFixSections e.sections := hs
    cases hsec : e.sections with
    | nil => rw [hsec] at hs'; simp [simpleFixSections] at hs'
    | cons s0 l0 =>
      rw [hsec] at hs'
      exact simpleFixGo_mem l0 0 s0 s hs'
  · intro _ ht2
    rw [simpleFixGo_drop]
    · rw [mergeIntoNext_eq]
      · rfl
      · rfl
      · exact ht2
    · rfl
    · rfl
  · intro t0 ht ht0
    subst ht
    rw [simpleFixGo_drop]
    · rw [mergeIntoNext_inherit]
      · rfl
      · rfl
      · rfl
      · simpa [strTruthy] using ht0
    · rfl
    · rfl
  · intro hsec
    cases rest with
    | nil =>
      refine ⟨[], ?_⟩
      conv_lhs => unfold simpleFixGo
      rw [if_neg hsec, fixTitle_eq]
    | cons next rest2 =>
      refine ⟨simpleFixGo (idx + 1) next rest2, ?_⟩
      conv_lhs => unfold simpleFixGo
      rw [if_neg hsec, fixTitle_eq]

/-- Witness for C8 at the spec's scenario: the empty Consignes section is
dropped and its instructions are prepended to the next section's. -/
theorem C8_witness :
    simpleFixGo 0
        { section_title := none, instructions := some "Consignes générales", questions := [] }
        ({ section_title := some "B", instructions := some "Lisez le texte.",
           questions := [qPlain] } :: [])
      = simpleFixGo 1
          { section_title := some "B",
            instructions := some "Consignes générales\n\nLisez le texte.",
            questions := [qPlain] } [] :=
  (C8_simple_fix_sections examScenario 0 none (some "B") [qPlain] []
      { section_title := none, instructions := none, questions := [] }).2.1
    (by decide) (by decide)

/-! ## Lemmas about the answer-inference passes -/

theorem fix1_of_correct_truthy (qtype c0 : Option String) (fa : String)
    (opts : Option (List (String × String))) (aps : List AnswerPart) (q : Question)
    (h : strTruthy c0 = true) :
    fix1_mcqInfer qtype c0 fa opts aps q = q := by
  unfold fix1_mcqInfer
  rw [if_neg]
  intro hcon
  exact hcon.2 h

theorem fix1_of_not_mcq (qtype c0 : Option String) (fa : String)
    (opts : Option (List (String × String))) (aps : List AnswerPart) (q : Question)
    (h : qtype ≠ some "multiple_choice") :
    fix1_mcqInfer qtype c0 fa opts aps q = q := by
  unfold fix1_mcqInfer
  rw [if_neg]
  intro hcon
  exact h hcon.1

theorem fix3_of_correct_truthy (qtype c0 : Option String) (fa : String)
    (aps : List AnswerPart) (q : Question) (h : strTruthy c0 = true) :
    fix3_fillBlank qtype c0 fa aps q = q := by
  unfold fix3_fillBlank
  rw [if_neg]
  intro hcon
  exact hcon.2 h

theorem fix3_of_not_fill (qtype c0 : Option String) (fa : String)
    (aps : List AnswerPart) (q : Question) (h : qtype ≠ some "fill_blank") :
    fix3_fillBlank qtype c0 fa aps q = q := by
  unfold fix3_fillBlank
  rw [if_neg]
  intro hcon
  exact h hcon.1

theorem fix4_of_correct_truthy (qtype c0 : Option String) (fa : String)
    (q : Question) (h : strTruthy c0 = true) :
    fix4_trueFalse qtype c0 fa q = q := by
  unfold fix4_trueFalse
  rw [if_neg]
  intro hcon
  exact hcon.2 h

theorem fix4_of_not_tf (qtype c0 : Option String) (fa : String)
    (q : Question) (h : qtype ≠ some "true_false") :
    fix4_trueFalse qtype c0 fa q = q := by
  unfold fix4_trueFalse
  rw [if_neg]
  intro hcon
  exact h hcon.1

theorem fix5_correct (s : String) (q : Question) :
    (fix5_cleanLatex s q).correct = q.correct := by
  unfold fix5_cleanLatex
  split <;> rfl

theorem fix0_correct (q : Question) :
    (fix0_resolveType q).correct = q.correct := by
  simp only [fix0_resolveType]
  split
  · split
    · rfl
    · split <;> rfl
  · rfl

/-- C6: inference non-overwrite. Each of the three answer-inference passes
(MCQ from `final_answer`/`answer_parts`, fill-blank, true/false), invoked as
`fix_question` invokes them with the question's own pre-existing `correct` as
the captured `correct0`, returns the question unchanged whenever that
`correct` is non-empty: inference only populates an unset `correct`. -/
theorem C6_inference_non_overwrite (q : Question) (qtype : Option String)
    (fa : String) (opts : Option (List (String × String))) (aps : List AnswerPart)
    (h : strTruthy q.correct = true) :
    fix1_mcqInfer qtype q.correct fa opts aps q = q
  ∧ fix3_fillBlank qtype q.correct fa aps q = q
  ∧ fix4_trueFalse qtype q.correct fa q = q :=
  ⟨fix1_of_correct_truthy qtype q.correct fa opts aps q h,
   fix3_of_correct_truthy qtype q.correct fa aps q h,
   fix4_of_correct_truthy qtype q.correct fa q h⟩

/-- Witness for C6 on a concrete MCQ with `correct = "a"` already set. -/
theorem C6_witness :
    fix1_mcqInfer (some "multiple_choice") qSet.correct "b" none [] qSet = qSet
  ∧ fix3_fillBlank (some "multiple_choice") qSet.correct "b" [] qSet = qSet
  ∧ fix4_trueFalse (some "multiple_choice") qSet.correct "b" qSet = qSet :=
  C6_inference_non_overwrite qSet (some "multiple_choice") "b" none [] (by decide)

/-- C10: for a question whose resolved type is none of `multiple_choice`,
`fill_blank`, `true_false` (i.e. matching, calculation, short_answer, essay),
`fix_question` leaves the `correct` field unchanged even when `final_answer`
or `answer_parts` are present. -/
theorem C10_non_inferred_types_untouched (q : Question) (s : String)
    (h : (fix0_resolveType q).qtype ∉
        ([some "multiple_choice", some "fill_blank", some "true_false"] :
          List (Option String))) :
    (fix_question q s).correct = q.correct := by
  simp only [List.mem_cons, List.not_mem_nil, or_false, not_or] at h
  obtain ⟨h1, h2, h3⟩ := h
  simp only [fix_question]
  rw [fix5_correct]
  rw [fix4_of_not_tf _ _ _ _ h3]
  rw [fix3_of_not_fill _ _ _ _ _ h2]
  rw [if_neg (fun hc => h1 hc.1)]
  rw [fix1_of_not_mcq _ _ _ _ _ _ h1]
  rw [fix0_correct]

/-- Witness for C10 on a concrete essay question carrying both a set
`correct` and a `final_answer`. -/
theorem C10_witness : (fix_question qEssay "maths").correct = qEssay.correct :=
  C10_non_inferred_types_untouched qEssay "maths" (by decide)

/-- C7: the markup-cleanup function only rewrites when the exam's lower-cased
subject is in the fixed non-quantitative subject list; every other subject
(including unrecognized ones) gets its text back unchanged; and for a subject
in the list, ordinal markup such as a math-delimited 9-th is flattened to
plain 9th. -/
theorem C7_text_normalizer_scope (subject t : String) :
    (subject ∉ LANGUAGE_SUBJECTS → clean_latex_for_language t subject = t)
  ∧ (subject ∈ LANGUAGE_SUBJECTS →
      clean_latex_for_language "He sat the $9^\x7bth\x7d$ exam." subject
        = "He sat the 9th exam.") := by
  constructor
  · intro h
    unfold clean_latex_for_language
    rw [if_pos (Or.inr h)]
  · intro h
    unfold clean_latex_for_language
    rw [if_neg]
    · rfl
    · rintro (h1 | h2)
      · exact absurd h1 (by decide)
      · exact h2 h

/-- Witness for C7: the quantitative subject maths leaves the ordinal markup
untouched, the non-quantitative subject anglais flattens it. -/
theorem C7_witness :
    clean_latex_for_language "He sat the $9^\x7bth\x7d$ exam." "maths"
      = "He sat the $9^\x7bth\x7d$ exam."
  ∧ clean_latex_for_language "He sat the $9^\x7bth\x7d$ exam." "anglais"
      = "He sat the 9th exam." :=
  ⟨(C7_text_normalizer_scope "maths" "He sat the $9^\x7bth\x7d$ exam.").1 (by decide),
   (C7_text_normalizer_scope "anglais" "x").2 (by decide)⟩

/-! ## C5: the MCQ key-correction pass -/

/-- C5: for an MCQ whose non-empty `correct` is not (case-insensitively) one
of the option keys, the key-correction pass rewrites `correct` to the first
option key whose value matches, preferring an exact (case-insensitive,
stripped) value match over a substring match, with map iteration order
deciding ties; in particular when `correct` equals some option's value text
case-insensitively, the pass ends with `correct` being a key of `options`. -/
theorem C5_mcq_key_correction (q : Question) (correct : String)
    (opts : List (String × String))
    (hc : q.correct = some correct) (ho : q.options = some opts)
    (hne : correct ≠ "") (hnopts : opts ≠ [])
    (hnk : (opts.map (fun kv => pyLower kv.1)).contains (pyLower correct) = false) :
    (∀ k v,
      opts.find? (fun kv => pyStrip (pyLower kv.2) == pyStrip (pyLower correct)) = some (k, v) →
      (fix_mcq_correct_key q).correct = some k)
  ∧ (opts.find? (fun kv => pyStrip (pyLower kv.2) == pyStrip (pyLower correct)) = none →
      ∀ k v,
      opts.find? (fun kv => pyIn (pyStrip (pyLower correct)) (pyStrip (pyLower kv.2))) = some (k, v) →
      (fix_mcq_correct_key q).correct = some k)
  ∧ ((∃ kv ∈ opts, pyLower kv.2 = pyLower correct) →
      ∃ k, (fix_mcq_correct_key q).correct = some k ∧ k ∈ opts.map Prod.fst) := by
  have hstep : fix_mcq_correct_key q
      = (match opts.find? (fun kv => pyStrip (pyLower kv.2) == pyStrip (pyLower correct)) with
         | some kv => { q with options := some opts, correct := some kv.1 }
         | none =>
           match opts.find? (fun kv => pyIn (pyStrip (pyLower correct)) (pyStrip (pyLower kv.2))) with
           | some kv => { q with options := some opts, correct := some kv.1 }
           | none => q) := by
    unfold fix_mcq_correct_key
    rw [hc, ho]
    dsimp only
    rw [if_neg (by push_neg; exact ⟨hne, hnopts⟩), hnk]
    simp only [Bool.false_eq_true, if_false]
  refine ⟨?_, ?_, ?_⟩
  · intro k v hfind
    rw [hstep, hfind]
  · intro hnone k v hfind
    rw [hstep, hnone, hfind]
  · rintro ⟨kv, hmem, hval⟩
    have hp : (fun kv => pyStrip (pyLower kv.2) == pyStrip (pyLower correct)) kv = true := by
      simp [hval]
    cases hfind : opts.find? (fun kv => pyStrip (pyLower kv.2) == pyStrip (pyLower correct)) with
    | none => exact absurd hp (by simpa using List.find?_eq_none.mp hfind kv hmem)
    | some kv' =>
      refine ⟨kv'.1, ?_, List.mem_map.mpr ⟨kv', List.mem_of_find?_eq_some hfind, rfl⟩⟩
      rw [hstep, hfind]

/-- Witness for C5: `correct = "Color"` on the Colour/Color options is
rewritten to the key c. -/
theorem C5_witness : (fix_mcq_correct_key qKeyText).correct = some "c" :=
  (C5_mcq_key_correction qKeyText "Color"
      [("a", "Colour"), ("b", "Colour"), ("c", "Color"), ("d", "Colours")]
      rfl rfl (by decide) (by decide) (by decide)).1 "c" "Color" (by decide)

/-! ## C4: MCQ inference from final_answer -/

theorem strTruthy_some (s : String) (h : s ≠ "") : strTruthy (some s) = true := by
  simp [strTruthy, h]

theorem mem_mcqBareKeys_ne_empty (fl : String) (h : fl ∈ mcqBareKeys) : fl ≠ "" := by
  simp only [mcqBareKeys, List.mem_cons, List.not_mem_nil, or_false] at h
  rcases h with rfl | rfl | rfl | rfl | rfl | rfl <;> decide

theorem leadKey_ne_empty (fl k : String) (h : leadKey fl = some k) : k ≠ "" := by
  unfold leadKey at h
  split at h
  · simp at h
  · split at h
    · rw [Option.some.injEq] at h
      subst h
      intro hh
      have := congrArg String.data hh
      simp at this
    · simp at h
  · split at h
    · rw [Option.some.injEq] at h
      subst h
      intro hh
      have := congrArg String.data hh
      simp at this
    · simp at h

/-- C4 counterexample. The claim's substring fallback does not exist in the
`final_answer` inference: with options a mapping a to Paris and
`final_answer = "Pari"` (a strict substring of the option value), the claim
predicts `correct = "a"`, but `fix_question` leaves `correct` unset. -/
theorem C4_counterexample :
    (fix_question qPari "maths").correct = none
  ∧ (fix_question qPari "maths").correct ≠ some "a" :=
  ⟨by decide, by decide⟩

/-- C4 as amended: for an MCQ with `correct` unset and non-empty
`final_answer`, inference tries in order: (1) the lower-cased stripped
`final_answer` as a bare key a-f; (2) its leading letter a-f when followed by
a separator; (3) an exact (not substring) case-insensitive stripped match
against each option's value, first match in map iteration order winning. The
Colour/Color scenario resolves to the key c through the exact match. -/
theorem C4_mcq_inference_amended (q : Question) (c0 : Option String) (fa : String)
    (opts : List (String × String)) (aps : List AnswerPart)
    (hc : ¬ strTruthy c0 = true) (hfa : fa ≠ "") :
    (pyStrip (pyLower fa) ∈ mcqBareKeys →
      (fix1_mcqInfer (some "multiple_choice") c0 fa (some opts) aps q).correct
        = some (pyStrip (pyLower fa)))
  ∧ (∀ k, pyStrip (pyLower fa) ∉ mcqBareKeys → leadKey (pyStrip (pyLower fa)) = some k →
      (fix1_mcqInfer (some "multiple_choice") c0 fa (some opts) aps q).correct = some k)
  ∧ (∀ k v, pyStrip (pyLower fa) ∉ mcqBareKeys → leadKey (pyStrip (pyLower fa)) = none →
      opts ≠ [] → k ≠ "" →
      opts.find? (fun kv => pyStrip (pyLower kv.2) == pyStrip (pyLower fa)
          || pyStrip (pyLower fa) == pyStrip (pyLower kv.2)) = some (k, v) →
      (fix1_mcqInfer (some "multiple_choice") c0 fa (some opts) aps q).correct = some k)
  ∧ (fix_question qColor "maths").correct = some "c" := by
  refine ⟨?_, ?_, ?_, by decide⟩
  · intro hbare
    have hne := mem_mcqBareKeys_ne_empty _ hbare
    simp only [fix1_mcqInfer]
    rw [if_pos ⟨trivial, hc⟩, if_pos hfa, if_pos hbare]
    rw [if_neg (fun hh => hh (strTruthy_some _ hne))]
  · intro k hnb hlead
    have hkne := leadKey_ne_empty _ _ hlead
    simp only [fix1_mcqInfer]
    rw [if_pos ⟨trivial, hc⟩, if_pos hfa, if_neg hnb, hlead]
    dsimp only
    rw [if_neg (fun hh => hh (strTruthy_some _ hkne))]
  · intro k v hnb hlead hopts hk hfind
    simp only [fix1_mcqInfer]
    rw [if_pos ⟨trivial, hc⟩, if_pos hfa, if_neg hnb, hlead]
    dsimp only
    rw [if_pos hopts, hfind]
    dsimp only
    rw [if_neg (fun hh => hh (strTruthy_some _ hk))]

/-- Witness for the amended C4 at the spec's Colour/Color scenario input. -/
theorem C4_witness :
    (fix1_mcqInfer (some "multiple_choice") none "Color"
        (some [("a", "Colour"), ("b", "Colour"), ("c", "Color"), ("d", "Colours")])
        [] qColor).correct = some "c" :=
  (C4_mcq_inference_amended qColor none "Color"
      [("a", "Colour"), ("b", "Colour"), ("c", "Color"), ("d", "Colours")] []
      (by decide) (by decide)).2.2.1 "c" "Color"
    (by decide) (by decide) (by decide) (by decide) (by decide)

/-! ## C2: no pre-application plan validation -/

/-- C2 counterexample. `planDup` references original index 1 in two entries,
so it violates the spec's partition condition, yet `apply_gemini_plan`
applies it without complaint and — because the duplicated section holds no
questions — the count gate accepts the result, which differs from both the
original exam and the `simple_fix` fallback: the violating plan *is* applied
to the exam, contradicting the claim. -/
theorem C2_counterexample :
    ¬ specPlanPartition planDup examTwo.sections.length
  ∧ apply_gemini_plan examTwo planDup = Except.ok examTwoApplied
  ∧ restructureStep examTwo planDup = examTwoApplied
  ∧ examTwoApplied ≠ simple_fix examTwo :=
  ⟨by decide, by rfl, by decide, by decide⟩

/-- C2 as amended: the code performs no pre-application validation of the
partition condition. Any plan whose applied output happens to conserve the
total question count is accepted and stored as-is — partition-valid or not;
the post-hoc count comparison is the only gate. -/
theorem C2_no_prevalidation (e : Exam) (p : List PlanEntry) (r : Exam)
    (h1 : apply_gemini_plan e p = Except.ok r)
    (h2 : count_questions r = count_questions e) :
    restructureStep e p = r := by
  unfold restructureStep
  rw [h1]
  dsimp only
  rw [if_pos h2]

/-- Witness for the amended C2: the partition-violating `planDup` is applied
and its output stored. -/
theorem C2_witness : restructureStep examTwo planDup = examTwoApplied :=
  C2_no_prevalidation examTwo planDup examTwoApplied (by rfl) (by decide)

/-! ## C9: plan-applier totality on out-of-range indices -/

theorem exceptBind_ok {α β : Type} (a : α) (f : α → Except Unit β) :
    (Except.ok a : Except Unit α) >>= f = f a := rfl

theorem exceptBind_error {α β : Type} (f : α → Except Unit β) :
    (Except.error () : Except Unit α) >>= f = Except.error () := rfl

theorem exceptPure_bind {α β : Type} (a : α) (f : α → Except Unit β) :
    (pure a : Except Unit α) >>= f = f a := rfl

theorem collectIdx_skip (orig : List Section) (acc : List Question × List String) (i : Int)
    (h : ¬ i < (orig.length : Int)) : collectIdx orig acc i = pure acc := by
  unfold collectIdx
  rw [if_neg h]

theorem mergeIdx_skip (orig : List Section) (last : Section) (i : Int)
    (h : ¬ i < (orig.length : Int)) : mergeIdx orig last i = pure last := by
  unfold mergeIdx
  rw [if_neg h]

/-- Indices at or beyond the section count contribute nothing to the
keep/rename collection loop. -/
theorem foldlM_collectIdx_filter (orig : List Section) :
    ∀ (idxs : List Int) (acc : List Question × List String),
      (idxs.filter (fun i => i < (orig.length : Int))).foldlM (collectIdx orig) acc
        = idxs.foldlM (collectIdx orig) acc := by
  intro idxs
  induction idxs with
  | nil => intro acc; rfl
  | cons i rest ih =>
    intro acc
    by_cases h : i < (orig.length : Int)
    · rw [List.filter_cons_of_pos (by simpa using h)]
      rw [List.foldlM_cons, List.foldlM_cons]
      cases hc : collectIdx orig acc i with
      | error err => rfl
      | ok a => rw [exceptBind_ok, exceptBind_ok]; exact ih a
    · rw [List.filter_cons_of_neg (by simpa using h)]
      rw [List.foldlM_cons, collectIdx_skip orig acc i h, exceptPure_bind]
      exact ih acc

/-- Indices at or beyond the section count contribute nothing to the
merge-into-previous loop. -/
theorem foldlM_mergeIdx_filter (orig : List Section) :
    ∀ (idxs : List Int) (last : Section),
      (idxs.filter (fun i => i < (orig.length : Int))).foldlM (mergeIdx orig) last
        = idxs.foldlM (mergeIdx orig) last := by
  intro idxs
  induction idxs with
  | nil => intro last; rfl
  | cons i rest ih =>
    intro last
    by_cases h : i < (orig.length : Int)
    · rw [List.filter_cons_of_pos (by simpa using h)]
      rw [List.foldlM_cons, List.foldlM_cons]
      cases hc : mergeIdx orig last i with
      | error err => rfl
      | ok a => rw [exceptBind_ok, exceptBind_ok]; exact ih a
    · rw [List.filter_cons_of_neg (by simpa using h)]
      rw [List.foldlM_cons, mergeIdx_skip orig last i h, exceptPure_bind]
      exact ih last

theorem applyEntryStep_dropHigh (orig : List Section) (acc : List Section) (en : PlanEntry) :
    applyEntryStep orig acc (entryDropHigh orig.length en) = applyEntryStep orig acc en := by
  unfold applyEntryStep entryDropHigh
  dsimp only
  by_cases h : en.merge_strategy = "merge_into_previous" ∧ acc ≠ []
  · rw [if_pos h, if_pos h]
    cases acc with
    | nil => rfl
    | cons last restAcc =>
      dsimp only
      rw [foldlM_mergeIdx_filter]
  · rw [if_neg h, if_neg h]
    unfold buildKeepSection
    dsimp only
    rw [foldlM_collectIdx_filter]

theorem foldlM_applyEntryStep_dropHigh (orig : List Section) :
    ∀ (plan : List PlanEntry) (acc : List Section),
      (plan.map (entryDropHigh orig.length)).foldlM (applyEntryStep orig) acc
        = plan.foldlM (applyEntryStep orig) acc := by
  intro plan
  induction plan with
  | nil => intro acc; rfl
  | cons en rest ih =>
    intro acc
    rw [List.map_cons, List.foldlM_cons, List.foldlM_cons, applyEntryStep_dropHigh]
    cases hc : applyEntryStep orig acc en with
    | error err => rfl
    | ok a => rw [exceptBind_ok, exceptBind_ok]; exact ih a

theorem pyListGet_ok (l : List Section) (i : Int) (h0 : 0 ≤ i)
    (h1 : i < (l.length : Int)) : ∃ s, pyListGet l i = Except.ok s := by
  unfold pyListGet
  dsimp only
  have hcond : (0 ≤ (if i < 0 then i + (l.length : Int) else i))
      ∧ (if i < 0 then i + (l.length : Int) else i) < (l.length : Int) := by
    rw [if_neg (by omega : ¬ i < 0)]
    exact ⟨h0, h1⟩
  rw [dif_pos hcond]
  exact ⟨_, rfl⟩

theorem collectIdx_ok (orig : List Section) (acc : List Question × List String) (i : Int)
    (h0 : 0 ≤ i) : ∃ acc', collectIdx orig acc i = Except.ok acc' := by
  unfold collectIdx
  by_cases h : i < (orig.length : Int)
  · rw [if_pos h]
    obtain ⟨s, hs⟩ := pyListGet_ok orig i h0 h
    rw [hs]
    exact ⟨_, rfl⟩
  · rw [if_neg h]
    exact ⟨acc, rfl⟩

theorem mergeIdx_ok (orig : List Section) (last : Section) (i : Int)
    (h0 : 0 ≤ i) : ∃ last', mergeIdx orig last i = Except.ok last' := by
  unfold mergeIdx
  by_cases h : i < (orig.length : Int)
  · rw [if_pos h]
    obtain ⟨s, hs⟩ := pyListGet_ok orig i h0 h
    rw [hs, exceptBind_ok]
    dsimp only
    by_cases h2 : strTruthy s.instructions = true
    · rw [if_pos h2]
      by_cases h3 : last.instructions.getD "" ≠ ""
      · rw [if_pos h3]
        exact ⟨_, rfl⟩
      · rw [if_neg h3]
        exact ⟨_, rfl⟩
    · rw [if_neg h2]
      exact ⟨_, rfl⟩
  · rw [if_neg h]
    exact ⟨last, rfl⟩

theorem foldlM_collectIdx_ok (orig : List Section) :
    ∀ (idxs : List Int) (acc : List Question × List String),
      (∀ i ∈ idxs, 0 ≤ i) →
      ∃ acc', idxs.foldlM (collectIdx orig) acc = Except.ok acc' := by
  intro idxs
  induction idxs with
  | nil => intro acc _; exact ⟨acc, rfl⟩
  | cons i rest ih =>
    intro acc hpos
    obtain ⟨a, ha⟩ := collectIdx_ok orig acc i (hpos i (by simp))
    obtain ⟨a', ha'⟩ := ih a (fun j hj => hpos j (by simp [hj]))
    exact ⟨a', by rw [List.foldlM_cons, ha, exceptBind_ok, ha']⟩

theorem foldlM_mergeIdx_ok (orig : List Section) :
    ∀ (idxs : List Int) (last : Section),
      (∀ i ∈ idxs, 0 ≤ i) →
      ∃ last', idxs.foldlM (mergeIdx orig) last = Except.ok last' := by
  intro idxs
  induction idxs with
  | nil => intro last _; exact ⟨last, rfl⟩
  | cons i rest ih =>
    intro last hpos
    obtain ⟨a, ha⟩ := mergeIdx_ok orig last i (hpos i (by simp))
    obtain ⟨a', ha'⟩ := ih a (fun j hj => hpos j (by simp [hj]))
    exact ⟨a', by rw [List.foldlM_cons, ha, exceptBind_ok, ha']⟩

theorem buildKeepSection_ok (orig : List Section) (en : PlanEntry)
    (hpos : ∀ i ∈ en.original_indices, 0 ≤ i) :
    ∃ sec, buildKeepSection orig en = Except.ok sec := by
  unfold buildKeepSection
  obtain ⟨acc', ha⟩ := foldlM_collectIdx_ok orig en.original_indices ([], []) hpos
  rw [ha]
  exact ⟨_, rfl⟩

theorem applyEntryStep_ok (orig : List Section) (acc : List Section) (en : PlanEntry)
    (hpos : ∀ i ∈ en.original_indices, 0 ≤ i) :
    ∃ acc', applyEntryStep orig acc en = Except.ok acc' := by
  unfold applyEntryStep
  by_cases h : en.merge_strategy = "merge_into_previous" ∧ acc ≠ []
  · rw [if_pos h]
    cases acc with
    | nil => exact ⟨[], rfl⟩
    | cons last restAcc =>
      obtain ⟨l', hl⟩ := foldlM_mergeIdx_ok orig en.original_indices last hpos
      show ∃ acc', (en.original_indices.foldlM (mergeIdx orig) last >>= fun last1 =>
        pure (last1 :: restAcc)) = Except.ok acc'
      rw [hl]
      exact ⟨_, rfl⟩
  · rw [if_neg h]
    obtain ⟨sec, hsec⟩ := buildKeepSection_ok orig en hpos
    rw [hsec]
    exact ⟨_, rfl⟩

theorem foldlM_applyEntryStep_ok (orig : List Section) :
    ∀ (plan : List PlanEntry) (acc : List Section),
      (∀ en ∈ plan, ∀ i ∈ en.original_indices, 0 ≤ i) →
      ∃ acc', plan.foldlM (applyEntryStep orig) acc = Except.ok acc' := by
  intro plan
  induction plan with
  | nil => intro acc _; exact ⟨acc, rfl⟩
  | cons en rest ih =>
    intro acc hpos
    obtain ⟨a, ha⟩ := applyEntryStep_ok orig acc en (hpos en (by simp))
    obtain ⟨a', ha'⟩ := ih a (fun x hx => hpos x (by simp [hx]))
    exact ⟨a', by rw [List.foldlM_cons, ha, exceptBind_ok, ha']⟩

/-- C9: the plan applier never fails on an `original_indices` element at or
beyond the number of original sections — such indices are silently skipped
and contribute no questions and no instructions in either the keep/rename or
the merge-into-previous path (removing them does not change the result), and
a plan whose indices are all non-negative always applies without error. -/
theorem C9_plan_applier_totality (e : Exam) (plan : List PlanEntry) :
    apply_gemini_plan e (plan.map (entryDropHigh e.sections.length)) = apply_gemini_plan e plan
  ∧ ((∀ en ∈ plan, ∀ i ∈ en.original_indices, 0 ≤ i) →
      ∃ r, apply_gemini_plan e plan = Except.ok r) := by
  constructor
  · unfold apply_gemini_plan
    by_cases hp : plan = []
    · subst hp; rfl
    · rw [if_neg (by simpa [List.map_eq_nil_iff] using hp), if_neg hp]
      unfold applyEntries
      rw [foldlM_applyEntryStep_dropHigh]
  · intro hpos
    unfold apply_gemini_plan
    by_cases hp : plan = []
    · subst hp
      exact ⟨e, by rw [if_pos rfl]⟩
    · rw [if_neg hp]
      obtain ⟨acc', ha⟩ := foldlM_applyEntryStep_ok e.sections plan [] hpos
      unfold applyEntries
      rw [ha]
      exact ⟨_, rfl⟩

/-- Witness for C9: the plan referencing out-of-range index 5 applies without
failure to the two-section exam. -/
theorem C9_witness : ∃ r, apply_gemini_plan examTwo planHigh = Except.ok r :=
  (C9_plan_applier_totality examTwo planHigh).2 (by decide)

end EdLight
